import Mathlib

/-!
Shallow embedding of `src/tools/tcp_gen.py` (a TCP traffic generator with
length-prefixed framing, randomized fragmentation, deadline-based pacing and
a sequential send loop), together with proofs about the embedded code.

Bytes are modelled as `List Nat` (each entry intended `< 256`); Python `int`
is modelled as `Int` where sign matters and as `Nat` where the source
guarantees non-negativity.  The pseudo-random stream `random.Random` is
modelled as an arbitrary function `Nat → Nat` giving the raw draw at each
index: quantifying over all such streams covers every sequence of choices the
Python RNG can make, and `randint` maps a raw draw into the requested range.
Wall-clock times (`time.perf_counter()` values) are modelled as rationals
supplied by an external clock.  Python exceptions are modelled as
`Except.error`.
-/

namespace TcpGen

/-- Embeds `struct.pack(">I", x)` for `x < 2^32`: the big-endian 4-byte
encoding, most significant byte first. -/
def packBE32 (x : Nat) : List Nat :=
  [x / 2 ^ 24 % 256, x / 2 ^ 16 % 256, x / 2 ^ 8 % 256, x % 256]

/-- Embeds `build_message` (tcp_gen.py lines 76-87): build one framed message
`[LEN][TYPE][PAYLOAD]` with `LEN = 1 + len(payload)`; raises `ValueError`
(modelled as `Except.error`) when `msg_type` is out of byte range or the
payload exceeds 254 bytes. -/
def build_message (msg_type : Int) (payload : List Nat) : Except String (List Nat) :=
  if ¬ (0 ≤ msg_type ∧ msg_type ≤ 255) then
    Except.error "msg_type must fit in 1 byte"
  else if payload.length > 254 then
    Except.error "payload too large for 1-byte LEN framing"
  else
    Except.ok ((1 + payload.length) :: msg_type.toNat :: payload)

/-- Decoder implementing the inverse of the `[LEN][TYPE][PAYLOAD]` rule of
the wire format: byte 0 is `LEN = 1 + len(PAYLOAD)`, byte 1 is `TYPE`, the
rest is the payload. -/
def decode_message (frame : List Nat) : Option (Nat × List Nat) :=
  match frame with
  | len :: ty :: rest => if len = 1 + rest.length then some (ty, rest) else none
  | _ => none

/-- Embeds `make_payload` (tcp_gen.py lines 90-112): a payload of
`payload_len` bytes; empty when the length is 0; for length `>= 4` the first
4 bytes are the big-endian encoding of `seq & 0xFFFFFFFF` followed by
`rng.randrange(0, 256)` draws; for length `< 4` the first `payload_len`
bytes of that encoding (the slice `tmp[0:n]`). -/
def make_payload (payload_len : Nat) (seq : Nat) (rng : Nat → Nat) : List Nat :=
  if payload_len = 0 then []
  else if 4 ≤ payload_len then
    packBE32 (seq % 2 ^ 32) ++ (List.range (payload_len - 4)).map (fun i => rng i % 256)
  else
    (packBE32 (seq % 2 ^ 32)).take payload_len

/-- Embeds `rng.randint(lo, hi)`: some value in `[lo, hi]`, here the raw
draw `rng k` reduced into the range.  Quantifying theorems over `rng` covers
every value the Python call can return. -/
def randint (rng : Nat → Nat) (k lo hi : Nat) : Nat :=
  lo + rng k % (hi - lo + 1)

theorem randint_ge_one (rng : Nat → Nat) (k hi : Nat) : 1 ≤ randint rng k 1 hi :=
  Nat.le_add_right 1 _

theorem randint_le (rng : Nat → Nat) (k hi : Nat) (h : 1 ≤ hi) :
    randint rng k 1 hi ≤ hi := by
  unfold randint
  have := Nat.mod_lt (rng k) (show 0 < hi - 1 + 1 by omega)
  omega

/-- Embeds the chunking loop of `send_fragmented` (tcp_gen.py lines 137-142):
starting at draw index `k`, repeatedly pick
`chunk_len = rng.randint(1, min(max_chunk, remaining))`, emit that slice and
advance, until the data is exhausted.  Returns the emitted chunks in
emission order. -/
def fragmentChunks (rng : Nat → Nat) (maxChunk : Nat) (k : Nat) (data : List Nat) :
    List (List Nat) :=
  match data with
  | [] => []
  | b :: bs =>
    (b :: bs).take (randint rng k 1 (min maxChunk (b :: bs).length)) ::
      fragmentChunks rng maxChunk (k + 1)
        ((b :: bs).drop (randint rng k 1 (min maxChunk (b :: bs).length)))
termination_by data.length
decreasing_by
  have hc := randint_ge_one rng k (min maxChunk (b :: bs).length)
  simp only [List.length_drop, List.length_cons] at hc ⊢
  omega

/-- Embeds `send_fragmented` (tcp_gen.py lines 130-142): rejects
`max_chunk <= 0` with `ValueError` before any write, otherwise runs the
chunking loop, writing each chunk in order (the writes themselves happen on
the external transport; the observable behaviour is the ordered sequence of
chunks handed to `send_all`). -/
def send_fragmented (data : List Nat) (rng : Nat → Nat) (max_chunk : Int) :
    Except String (List (List Nat)) :=
  if max_chunk ≤ 0 then Except.error "max_chunk must be > 0"
  else Except.ok (fragmentChunks rng max_chunk.toNat 0 data)

theorem fragmentChunks_nil (rng : Nat → Nat) (mc k : Nat) :
    fragmentChunks rng mc k [] = [] := by
  rw [fragmentChunks.eq_def]

theorem fragmentChunks_cons (rng : Nat → Nat) (mc k : Nat) (b : Nat) (bs : List Nat) :
    fragmentChunks rng mc k (b :: bs) =
      (b :: bs).take (randint rng k 1 (min mc (b :: bs).length)) ::
        fragmentChunks rng mc (k + 1)
          ((b :: bs).drop (randint rng k 1 (min mc (b :: bs).length))) := by
  rw [fragmentChunks.eq_def]

theorem fragmentChunks_flatten (rng : Nat → Nat) (mc : Nat) :
    ∀ (k : Nat) (data : List Nat), (fragmentChunks rng mc k data).flatten = data
  | _, [] => by rw [fragmentChunks_nil]; rfl
  | k, b :: bs => by
    rw [fragmentChunks_cons, List.flatten_cons,
      fragmentChunks_flatten rng mc (k + 1)
        ((b :: bs).drop (randint rng k 1 (min mc (b :: bs).length))),
      List.take_append_drop]
termination_by _ data => data.length
decreasing_by
  have hc := randint_ge_one rng k (min mc (b :: bs).length)
  simp only [List.length_drop, List.length_cons] at hc ⊢
  omega

theorem fragmentChunks_mem_bounds (rng : Nat → Nat) (mc : Nat) (hmc : 1 ≤ mc) :
    ∀ (k : Nat) (data c : List Nat),
      c ∈ fragmentChunks rng mc k data → 1 ≤ c.length ∧ c.length ≤ mc
  | _, [], c => by rw [fragmentChunks_nil]; intro h; exact absurd h (List.not_mem_nil c)
  | k, b :: bs, c => by
    rw [fragmentChunks_cons]
    intro hmem
    rcases List.mem_cons.mp hmem with h | h
    · subst h
      have hL : 1 ≤ (b :: bs).length := by simp
      have hmin : 1 ≤ min mc (b :: bs).length := le_min hmc hL
      have h1 := randint_ge_one rng k (min mc (b :: bs).length)
      have h2 := randint_le rng k (min mc (b :: bs).length) hmin
      rw [List.length_take]
      omega
    · exact fragmentChunks_mem_bounds rng mc hmc (k + 1)
        ((b :: bs).drop (randint rng k 1 (min mc (b :: bs).length))) c h
termination_by _ data _ => data.length
decreasing_by
  have hc := randint_ge_one rng k (min mc (b :: bs).length)
  simp only [List.length_drop, List.length_cons] at hc ⊢
  omega

theorem fragmentChunks_count (rng : Nat → Nat) (mc : Nat) :
    ∀ (k : Nat) (data : List Nat),
      (fragmentChunks rng mc k data).length ≤ data.length
  | _, [] => by rw [fragmentChunks_nil]; exact Nat.le_refl _
  | k, b :: bs => by
    rw [fragmentChunks_cons]
    have hc := randint_ge_one rng k (min mc (b :: bs).length)
    have ih := fragmentChunks_count rng mc (k + 1)
      ((b :: bs).drop (randint rng k 1 (min mc (b :: bs).length)))
    simp only [List.length_drop, List.length_cons] at hc ih ⊢
    omega
termination_by _ data => data.length
decreasing_by
  have hc := randint_ge_one rng k (min mc (b :: bs).length)
  simp only [List.length_drop, List.length_cons] at hc ⊢
  omega

/-- C1: for every byte sequence `data` and every `max_chunk >= 1`, the
fragmenter succeeds and the chunks it emits, concatenated in emission order,
reconstruct `data` exactly; every emitted chunk has length between 1 and
`max_chunk`; and empty data yields zero chunks. -/
theorem send_fragmented_reconstructs (data : List Nat) (rng : Nat → Nat)
    (max_chunk : Int) (h : 1 ≤ max_chunk) :
    ∃ chunks, send_fragmented data rng max_chunk = Except.ok chunks ∧
      chunks.flatten = data ∧
      (∀ c ∈ chunks, 1 ≤ c.length ∧ (c.length : Int) ≤ max_chunk) ∧
      (data = [] → chunks = []) := by
  refine ⟨fragmentChunks rng max_chunk.toNat 0 data, ?_, ?_, ?_, ?_⟩
  · unfold send_fragmented
    rw [if_neg (by omega)]
  · exact fragmentChunks_flatten rng max_chunk.toNat 0 data
  · intro c hc
    have hb := fragmentChunks_mem_bounds rng max_chunk.toNat (by omega) 0 data c hc
    exact ⟨hb.1, by omega⟩
  · intro hd; subst hd; exact fragmentChunks_nil _ _ _

theorem send_fragmented_reconstructs_witness :
    ∃ chunks, send_fragmented [10, 20, 30] (fun _ => 0) 2 = Except.ok chunks ∧
      chunks.flatten = [10, 20, 30] ∧
      (∀ c ∈ chunks, 1 ≤ c.length ∧ (c.length : Int) ≤ 2) ∧
      ([10, 20, 30] = ([] : List Nat) → chunks = []) :=
  send_fragmented_reconstructs [10, 20, 30] (fun _ => 0) 2 (by norm_num)

/-- C6: for every `data` and every `max_chunk <= 0`, `send_fragmented` fails
with `ValueError` before emitting any chunk; for `max_chunk > 0` the error
branch is unreachable and the chunking loop runs. -/
theorem send_fragmented_requires_positive_chunk (data : List Nat)
    (rng : Nat → Nat) (max_chunk : Int) :
    (max_chunk ≤ 0 →
      send_fragmented data rng max_chunk = Except.error "max_chunk must be > 0") ∧
    (0 < max_chunk →
      ∃ chunks, send_fragmented data rng max_chunk = Except.ok chunks) := by
  constructor
  · intro h
    unfold send_fragmented
    rw [if_pos h]
  · intro h
    exact ⟨_, by unfold send_fragmented; rw [if_neg (by omega)]⟩

theorem send_fragmented_requires_positive_chunk_witness :
    send_fragmented [1, 2] (fun _ => 0) 0 = Except.error "max_chunk must be > 0" ∧
    (∃ chunks, send_fragmented [1, 2] (fun _ => 0) 8 = Except.ok chunks) :=
  ⟨(send_fragmented_requires_positive_chunk [1, 2] (fun _ => 0) 0).1 (by norm_num),
   (send_fragmented_requires_positive_chunk [1, 2] (fun _ => 0) 8).2 (by norm_num)⟩

/-- C10: for every `data` and every `max_chunk >= 1`, the fragmenter's
chunking loop terminates (the embedded loop is a total function): every
iteration emits a chunk of at least 1 byte, so the loop performs at most
`len(data)` iterations, i.e. at most `len(data)` chunks are emitted. -/
theorem fragmenter_loop_bounded (data : List Nat) (rng : Nat → Nat)
    (max_chunk : Int) (h : 1 ≤ max_chunk) :
    ∃ chunks, send_fragmented data rng max_chunk = Except.ok chunks ∧
      chunks.length ≤ data.length ∧
      ∀ c ∈ chunks, 1 ≤ c.length := by
  refine ⟨fragmentChunks rng max_chunk.toNat 0 data, ?_, ?_, ?_⟩
  · unfold send_fragmented
    rw [if_neg (by omega)]
  · exact fragmentChunks_count rng max_chunk.toNat 0 data
  · intro c hc
    exact (fragmentChunks_mem_bounds rng max_chunk.toNat (by omega) 0 data c hc).1

theorem fragmenter_loop_bounded_witness :
    ∃ chunks, send_fragmented [7, 7, 7, 7] (fun i => i + 3) 3 = Except.ok chunks ∧
      chunks.length ≤ ([7, 7, 7, 7] : List Nat).length ∧
      ∀ c ∈ chunks, 1 ≤ c.length :=
  fragmenter_loop_bounded [7, 7, 7, 7] (fun i => i + 3) 3 (by norm_num)

/-- C2: for every `msg_type` in `[0, 255]` and payload of at most 254 bytes,
`build_message` succeeds with exactly `2 + len(payload)` bytes: byte 0 is
`1 + len(payload)`, byte 1 is `msg_type`, the rest is the payload verbatim,
and decoding the frame by the `[LEN][TYPE][PAYLOAD]` rule recovers exactly
`msg_type` and the payload. -/
theorem build_message_roundtrip (msg_type : Int) (payload : List Nat)
    (h1 : 0 ≤ msg_type) (h2 : msg_type ≤ 255) (h3 : payload.length ≤ 254) :
    ∃ frame, build_message msg_type payload = Except.ok frame ∧
      frame.length = 2 + payload.length ∧
      frame[0]? = some (1 + payload.length) ∧
      frame[1]? = some msg_type.toNat ∧
      (msg_type.toNat : Int) = msg_type ∧
      frame.drop 2 = payload ∧
      decode_message frame = some (msg_type.toNat, payload) := by
  refine ⟨(1 + payload.length) :: msg_type.toNat :: payload, ?_, ?_, by simp, by simp,
    Int.toNat_of_nonneg h1, rfl, ?_⟩
  · unfold build_message
    rw [if_neg (not_not_intro ⟨h1, h2⟩), if_neg (by omega)]
  · simp only [List.length_cons]
    omega
  · simp [decode_message]

theorem build_message_roundtrip_witness :
    ∃ frame, build_message 68 [9, 8, 7] = Except.ok frame ∧
      frame.length = 2 + ([9, 8, 7] : List Nat).length ∧
      frame[0]? = some (1 + ([9, 8, 7] : List Nat).length) ∧
      frame[1]? = some (Int.toNat 68) ∧
      ((Int.toNat 68 : Nat) : Int) = 68 ∧
      frame.drop 2 = [9, 8, 7] ∧
      decode_message frame = some (Int.toNat 68, [9, 8, 7]) :=
  build_message_roundtrip 68 [9, 8, 7] (by norm_num) (by norm_num) (by norm_num)

/-- C5: `build_message` fails with an error and produces no frame whenever
the payload exceeds 254 bytes (in particular at length 255) or `msg_type` is
outside `[0, 255]`; for all inputs satisfying both constraints it succeeds. -/
theorem build_message_validates (msg_type : Int) (payload : List Nat) :
    ((254 < payload.length ∨ msg_type < 0 ∨ 255 < msg_type) →
      ∃ e, build_message msg_type payload = Except.error e) ∧
    ((0 ≤ msg_type ∧ msg_type ≤ 255 ∧ payload.length ≤ 254) →
      ∃ frame, build_message msg_type payload = Except.ok frame) := by
  constructor
  · intro h
    unfold build_message
    by_cases hty : 0 ≤ msg_type ∧ msg_type ≤ 255
    · rw [if_neg (not_not_intro hty), if_pos (by omega)]
      exact ⟨_, rfl⟩
    · rw [if_pos hty]
      exact ⟨_, rfl⟩
  · rintro ⟨h1, h2, h3⟩
    unfold build_message
    rw [if_neg (not_not_intro ⟨h1, h2⟩), if_neg (by omega)]
    exact ⟨_, rfl⟩

theorem build_message_validates_witness :
    (∃ e, build_message 0 (List.replicate 255 0) = Except.error e) ∧
    (∃ e, build_message 300 [] = Except.error e) ∧
    (∃ e, build_message (-1) [] = Except.error e) ∧
    (∃ frame, build_message 68 (List.replicate 254 0) = Except.ok frame) :=
  ⟨(build_message_validates 0 (List.replicate 255 0)).1
     (Or.inl (by rw [List.length_replicate]; norm_num)),
   (build_message_validates 300 []).1 (Or.inr (Or.inr (by norm_num))),
   (build_message_validates (-1) []).1 (Or.inr (Or.inl (by norm_num))),
   (build_message_validates 68 (List.replicate 254 0)).2
     ⟨by norm_num, by norm_num, by rw [List.length_replicate]⟩⟩

/-- C3 counterexample: the claim says the payload for `length < 4` is the
LOW `length` bytes of the big-endian encoding, so for `payload_len = 3`,
`sequence = 1` it predicts bytes `[0x00, 0x00, 0x01]` and the frame
`[0x04, 0x44, 0x00, 0x00, 0x01]`.  The code slices `tmp[0:n]`, keeping the
HIGH-order bytes: the payload is `[0x00, 0x00, 0x00]` and the frame is
`[0x04, 0x44, 0x00, 0x00, 0x00]`. -/
theorem make_payload_low_bytes_counterexample :
    make_payload 3 1 (fun _ => 0) = [0, 0, 0] ∧
    make_payload 3 1 (fun _ => 0) ≠ [0x00, 0x00, 0x01] ∧
    build_message 0x44 (make_payload 3 1 (fun _ => 0)) =
      Except.ok [0x04, 0x44, 0x00, 0x00, 0x00] := by
  refine ⟨rfl, by decide, rfl⟩

/-- C3 amended: for every `length` with `0 < length < 4` and every sequence
number, `make_payload` returns the HIGH `length` bytes (the first `length`
bytes) of the big-endian 4-byte encoding of `sequence mod 2^32`; in
particular, for `msg_type = 0x44`, `payload_len = 3`, `sequence = 1` the
payload bytes are `[0x00, 0x00, 0x00]` and the resulting frame is
`[0x04, 0x44, 0x00, 0x00, 0x00]`. -/
theorem make_payload_high_bytes (len seq : Nat) (rng : Nat → Nat)
    (h1 : 0 < len) (h2 : len < 4) :
    make_payload len seq rng = (packBE32 (seq % 2 ^ 32)).take len ∧
    (∀ j, j < len →
      (make_payload len seq rng)[j]? = (packBE32 (seq % 2 ^ 32))[j]?) ∧
    make_payload 3 1 rng = [0x00, 0x00, 0x00] ∧
    build_message 0x44 (make_payload 3 1 rng) =
      Except.ok [0x04, 0x44, 0x00, 0x00, 0x00] := by
  have hmain : make_payload len seq rng = (packBE32 (seq % 2 ^ 32)).take len := by
    unfold make_payload
    rw [if_neg (by omega), if_neg (by omega)]
  refine ⟨hmain, ?_, rfl, rfl⟩
  intro j hj
  rw [hmain]
  exact List.getElem?_take_of_lt hj

theorem make_payload_high_bytes_witness :
    make_payload 2 258 (fun _ => 9) = (packBE32 (258 % 2 ^ 32)).take 2 ∧
    (∀ j, j < 2 →
      (make_payload 2 258 (fun _ => 9))[j]? =
        (packBE32 (258 % 2 ^ 32))[j]?) ∧
    make_payload 3 1 (fun _ => 9) = [0x00, 0x00, 0x00] ∧
    build_message 0x44 (make_payload 3 1 (fun _ => 9)) =
      Except.ok [0x04, 0x44, 0x00, 0x00, 0x00] :=
  make_payload_high_bytes 2 258 (fun _ => 9) (by norm_num) (by norm_num)

/-- Embeds the paced branch of the generator `rate_controller_next_deadline`
(tcp_gen.py lines 176-181): starting from the anchor `t` read from
`time.perf_counter()` when the generator body first runs, repeatedly do
`t += period; yield t`.  `paced_deadlines period t n` is the `n`-th yielded
deadline (0-indexed). -/
def paced_deadlines (period : Rat) : Rat → Nat → Rat
  | t, 0 => t + period
  | t, n + 1 => paced_deadlines period (t + period) n

/-- Embeds `rate_controller_next_deadline` (tcp_gen.py lines 168-181): for
`rate_mps <= 0` every yielded deadline is the immediate value `0.0`;
otherwise the `n`-th yielded deadline of the paced branch with
`period = 1 / rate_mps` anchored at `t0`. -/
def rate_controller_next_deadline (rate_mps t0 : Rat) (n : Nat) : Rat :=
  if rate_mps ≤ 0 then 0 else paced_deadlines (1 / rate_mps) t0 n

theorem paced_deadlines_closed (period : Rat) :
    ∀ (t : Rat) (n : Nat), paced_deadlines period t n = t + (n + 1) * period
  | t, 0 => by
    simp [paced_deadlines]
  | t, n + 1 => by
    rw [show paced_deadlines period t (n + 1) = paced_deadlines period (t + period) n
        from rfl,
      paced_deadlines_closed period (t + period) n]
    push_cast
    ring

/-- C4: for `rate_mps > 0` the `n`-th deadline (counting the first yield as
`n = 0`) equals the anchor plus `(n + 1) * (1 / rate_mps)` — i.e. the k-th
deadline, counting from 1, is the anchor plus `k * (1 / rate_mps)` — so
successive deadlines differ by exactly `1 / rate_mps`, are non-decreasing
and accumulate no drift; for `rate_mps <= 0` every yielded deadline is the
immediate value `0.0`. -/
theorem rate_controller_spec (rate_mps t0 : Rat) :
    (0 < rate_mps →
      (∀ n : Nat, rate_controller_next_deadline rate_mps t0 n =
        t0 + (n + 1) * (1 / rate_mps)) ∧
      (∀ n : Nat, rate_controller_next_deadline rate_mps t0 (n + 1) -
        rate_controller_next_deadline rate_mps t0 n = 1 / rate_mps) ∧
      (∀ n : Nat, rate_controller_next_deadline rate_mps t0 n ≤
        rate_controller_next_deadline rate_mps t0 (n + 1))) ∧
    (rate_mps ≤ 0 → ∀ n : Nat, rate_controller_next_deadline rate_mps t0 n = 0) := by
  constructor
  · intro h
    have hn : ¬ rate_mps ≤ 0 := not_le.mpr h
    have hclosed : ∀ n : Nat, rate_controller_next_deadline rate_mps t0 n =
        t0 + (n + 1) * (1 / rate_mps) := by
      intro n
      unfold rate_controller_next_deadline
      rw [if_neg hn, paced_deadlines_closed]
    refine ⟨hclosed, ?_, ?_⟩
    · intro n
      rw [hclosed, hclosed]
      push_cast
      ring
    · intro n
      rw [hclosed, hclosed]
      have hp : 0 < 1 / rate_mps := by positivity
      have hle : ((n : Rat) + 1) * (1 / rate_mps) ≤ ((n : Rat) + 1 + 1) * (1 / rate_mps) :=
        mul_le_mul_of_nonneg_right (by linarith) (le_of_lt hp)
      push_cast
      linarith
  · intro h n
    unfold rate_controller_next_deadline
    rw [if_pos h]

theorem rate_controller_spec_witness :
    rate_controller_next_deadline 2 5 0 = 5 + ((0 : Nat) + 1) * (1 / 2) ∧
    rate_controller_next_deadline 2 5 1 - rate_controller_next_deadline 2 5 0 = 1 / 2 ∧
    rate_controller_next_deadline 2 5 0 ≤ rate_controller_next_deadline 2 5 1 ∧
    rate_controller_next_deadline (-1) 5 0 = 0 :=
  ⟨((rate_controller_spec 2 5).1 (by norm_num)).1 0,
   ((rate_controller_spec 2 5).1 (by norm_num)).2.1 0,
   ((rate_controller_spec 2 5).1 (by norm_num)).2.2 0,
   (rate_controller_spec (-1) 5).2 (by norm_num) 0⟩

/-- Embeds the `msg_type` handling of `parse_args` (tcp_gen.py line 374):
the configured value is stored as `a.msg_type & 0xFF`, which for Python
integers (two's complement semantics for negatives) equals the non-negative
remainder `a.msg_type mod 256`. -/
def parse_args_msg_type (x : Int) : Int :=
  x % 256

/-- C8 counterexample: the claim says an out-of-range configured `msg_type`
is a fatal configuration error and is never silently clamped.  The code masks
the configured value with `& 0xFF` in `parse_args`: input `324 = 0x144` is
out of range, is turned into the different value `68 = 0x44`, and the run
proceeds — `build_message` accepts the masked value, so no error is ever
raised for it. -/
theorem msg_type_clamped_counterexample :
    parse_args_msg_type 324 = 68 ∧
    ¬ ((324 : Int) ≤ 255) ∧
    parse_args_msg_type 324 ≠ 324 ∧
    (∃ frame, build_message (parse_args_msg_type 324) [] = Except.ok frame) := by
  refine ⟨by decide, by decide, by decide, ⟨[1, 68], rfl⟩⟩

/-- C8 amended: an out-of-range `msg_type` in the configuration is NOT
detected as a configuration error: `parse_args` silently masks it to its low
8 bits (`msg_type & 0xFF`, i.e. `msg_type mod 256`), which always lies in
`[0, 255]`, and the run proceeds with the masked value — `build_message`
accepts it for every valid payload. -/
theorem msg_type_masked (x : Int) (payload : List Nat)
    (h : payload.length ≤ 254) :
    0 ≤ parse_args_msg_type x ∧ parse_args_msg_type x ≤ 255 ∧
    ∃ frame, build_message (parse_args_msg_type x) payload = Except.ok frame := by
  have h0 : 0 ≤ parse_args_msg_type x := Int.emod_nonneg x (by norm_num)
  have h255 : parse_args_msg_type x ≤ 255 := by
    have := Int.emod_lt_of_pos x (show (0 : Int) < 256 by norm_num)
    unfold parse_args_msg_type at *
    omega
  exact ⟨h0, h255, (build_message_validates (parse_args_msg_type x) payload).2
    ⟨h0, h255, h⟩⟩

theorem msg_type_masked_witness :
    0 ≤ parse_args_msg_type 324 ∧ parse_args_msg_type 324 ≤ 255 ∧
    ∃ frame, build_message (parse_args_msg_type 324) [9] = Except.ok frame :=
  msg_type_masked 324 [9] (by norm_num)

/-- Per-run counters updated by the send path, embedding the `sent`,
`send_bytes` and `send_fail` fields of `MsgStats` (tcp_gen.py lines 59-69).
The reply counters and the report timestamps are owned by the external
reply/reporting paths and play no role in the send-failure behaviour
modelled here. -/
structure MsgStats where
  sent : Nat
  send_bytes : Nat
  send_fail : Nat
deriving DecidableEq

/-- One CSV log record `(seq, send_time_s, bytes_sent, note)` as written by
`_send_one` (tcp_gen.py lines 296-302). -/
structure LogRecord where
  seq : Nat
  send_time_s : Rat
  bytes_sent : Nat
  note : String
deriving DecidableEq

/-- Embeds `_send_one` (tcp_gen.py lines 273-304): attempt the transport
write (its success is the external outcome `writeOk`; fragmentation only
changes how the bytes are split, not the counters); on success increment
`sent` and `send_bytes` and log `(seq, t, len(msg), "ok")`; on failure
increment `send_fail`, log `(seq, t, 0, "send_fail")` and re-raise (the
returned flag is `false` exactly when the exception propagates). -/
def sendOne (writeOk : Bool) (msgLen seq : Nat) (t : Rat) (stats : MsgStats) :
    MsgStats × LogRecord × Bool :=
  if writeOk then
    ({ stats with sent := stats.sent + 1, send_bytes := stats.send_bytes + msgLen },
      ⟨seq, t, msgLen, "ok"⟩, true)
  else
    ({ stats with send_fail := stats.send_fail + 1 }, ⟨seq, t, 0, "send_fail"⟩, false)

/-- Embeds the send loop of `run` (tcp_gen.py lines 222-262) on the send
path: at sequence number `k`, send one message of length `msgLen k` at time
`clock k`; on success continue with `seq += 1`, on failure the exception
propagates to the `except` handler, which returns exit code 1.  `fuel` is
the number of loop iterations the wall-clock time budget allows; a normal
exit returns code 0.  The result is the final counters, the log records in
write order and the exit code. -/
def runLoop (writeOk : Nat → Bool) (msgLen : Nat → Nat) (clock : Nat → Rat) :
    Nat → Nat → MsgStats → MsgStats × List LogRecord × Nat
  | _, 0, stats => (stats, [], 0)
  | k, fuel + 1, stats =>
    let r := sendOne (writeOk k) (msgLen k) k (clock k) stats
    if r.2.2 then
      let rest := runLoop writeOk msgLen clock (k + 1) fuel r.1
      (rest.1, r.2.1 :: rest.2.1, rest.2.2)
    else
      (r.1, [r.2.1], 1)

theorem runLoop_succ_true (writeOk : Nat → Bool) (msgLen : Nat → Nat)
    (clock : Nat → Rat) (k fuel : Nat) (stats : MsgStats) (h : writeOk k = true) :
    runLoop writeOk msgLen clock k (fuel + 1) stats =
      ((runLoop writeOk msgLen clock (k + 1) fuel
          { stats with sent := stats.sent + 1,
                       send_bytes := stats.send_bytes + msgLen k }).1,
        ⟨k, clock k, msgLen k, "ok"⟩ ::
          (runLoop writeOk msgLen clock (k + 1) fuel
            { stats with sent := stats.sent + 1,
                         send_bytes := stats.send_bytes + msgLen k }).2.1,
        (runLoop writeOk msgLen clock (k + 1) fuel
          { stats with sent := stats.sent + 1,
                       send_bytes := stats.send_bytes + msgLen k }).2.2) := by
  simp [runLoop, sendOne, h]

theorem runLoop_succ_false (writeOk : Nat → Bool) (msgLen : Nat → Nat)
    (clock : Nat → Rat) (k fuel : Nat) (stats : MsgStats) (h : writeOk k = false) :
    runLoop writeOk msgLen clock k (fuel + 1) stats =
      ({ stats with send_fail := stats.send_fail + 1 },
        [⟨k, clock k, 0, "send_fail"⟩], 1) := by
  simp [runLoop, sendOne, h]

theorem range_map_cons_shift {α : Type} (f : Nat → α) (m : Nat) :
    (List.range (m + 1)).map f = f 0 :: (List.range m).map (fun j => f (j + 1)) := by
  rw [List.range_succ_eq_map, List.map_cons, List.map_map]
  rfl

theorem runLoop_fail (writeOk : Nat → Bool) (msgLen : Nat → Nat) (clock : Nat → Rat)
    (m : Nat) : ∀ (k fuel : Nat) (stats : MsgStats),
    (∀ j, j < m → writeOk (k + j) = true) → writeOk (k + m) = false → m < fuel →
    runLoop writeOk msgLen clock k fuel stats =
      (⟨stats.sent + m,
        stats.send_bytes + ((List.range m).map (fun j => msgLen (k + j))).sum,
        stats.send_fail + 1⟩,
        (List.range m).map (fun j =>
          (⟨k + j, clock (k + j), msgLen (k + j), "ok"⟩ : LogRecord)) ++
          [⟨k + m, clock (k + m), 0, "send_fail"⟩],
        1) := by
  induction m with
  | zero =>
    intro k fuel stats hok hfail hfuel
    obtain ⟨f, rfl⟩ : ∃ f, fuel = f + 1 := ⟨fuel - 1, by omega⟩
    rw [runLoop_succ_false writeOk msgLen clock k f stats (by simpa using hfail)]
    simp
  | succ m ih =>
    intro k fuel stats hok hfail hfuel
    obtain ⟨f, rfl⟩ : ∃ f, fuel = f + 1 := ⟨fuel - 1, by omega⟩
    have h0 : writeOk k = true := by simpa using hok 0 (by omega)
    rw [runLoop_succ_true writeOk msgLen clock k f stats h0]
    have hok1 : ∀ j, j < m → writeOk (k + 1 + j) = true := by
      intro j hj
      have := hok (j + 1) (by omega)
      rwa [show k + (j + 1) = k + 1 + j by omega] at this
    have hfail1 : writeOk (k + 1 + m) = false := by
      rwa [show k + (m + 1) = k + 1 + m by omega] at hfail
    rw [ih (k + 1) f _ hok1 hfail1 (by omega)]
    have hrec : ∀ j : Nat, k + 1 + j = k + (j + 1) := by intro j; omega
    have hmapS : (List.range m).map (fun j => msgLen (k + 1 + j)) =
        (List.range m).map (fun j => msgLen (k + (j + 1))) :=
      List.map_congr_left fun j _ => by rw [hrec j]
    have hmapL : (List.range m).map (fun j =>
        (⟨k + 1 + j, clock (k + 1 + j), msgLen (k + 1 + j), "ok"⟩ : LogRecord)) =
        (List.range m).map (fun j =>
        (⟨k + (j + 1), clock (k + (j + 1)), msgLen (k + (j + 1)), "ok"⟩ : LogRecord)) :=
      List.map_congr_left fun j _ => by rw [hrec j]
    have hsum2 : msgLen k + ((List.range m).map (fun j => msgLen (k + (j + 1)))).sum =
        ((List.range (m + 1)).map (fun j => msgLen (k + j))).sum := by
      rw [range_map_cons_shift (fun j => msgLen (k + j)) m]
      simp
    have hcons : (⟨k, clock k, msgLen k, "ok"⟩ : LogRecord) ::
        (List.range m).map (fun j =>
          (⟨k + (j + 1), clock (k + (j + 1)), msgLen (k + (j + 1)), "ok"⟩ : LogRecord)) =
        (List.range (m + 1)).map (fun j =>
          (⟨k + j, clock (k + j), msgLen (k + j), "ok"⟩ : LogRecord)) := by
      rw [range_map_cons_shift (fun j =>
        (⟨k + j, clock (k + j), msgLen (k + j), "ok"⟩ : LogRecord)) m]
      simp
    rw [hmapS, hmapL, show k + 1 + m = k + (m + 1) from by omega,
      ← List.cons_append, hcons,
      show stats.sent + 1 + m = stats.sent + (m + 1) from by omega,
      Nat.add_assoc stats.send_bytes (msgLen k), hsum2]

/-- C7: if the transport write for message `N` (1-indexed) fails during a
run, the failure counter is incremented exactly once, exactly one log record
`(N - 1, clock (N - 1), 0, "send_fail")` is appended after the `N - 1`
successful "ok" records, the sent counter and sent-bytes counter are not
incremented for the failing message (they reflect only the first `N - 1`
messages), no further message is attempted, and the run returns the failed
exit code 1. -/
theorem run_aborts_on_send_failure (writeOk : Nat → Bool) (msgLen : Nat → Nat)
    (clock : Nat → Rat) (N fuel : Nat) (hN : 1 ≤ N) (hfuel : N ≤ fuel)
    (hok : ∀ k, k < N - 1 → writeOk k = true) (hfail : writeOk (N - 1) = false) :
    runLoop writeOk msgLen clock 0 fuel ⟨0, 0, 0⟩ =
      (⟨N - 1, ((List.range (N - 1)).map msgLen).sum, 1⟩,
        (List.range (N - 1)).map (fun j =>
          (⟨j, clock j, msgLen j, "ok"⟩ : LogRecord)) ++
          [⟨N - 1, clock (N - 1), 0, "send_fail"⟩],
        1) := by
  have h := runLoop_fail writeOk msgLen clock (N - 1) 0 fuel ⟨0, 0, 0⟩
    (by intro j hj; simpa using hok j hj) (by simpa using hfail) (by omega)
  rw [h]
  simp

theorem run_aborts_on_send_failure_witness :
    runLoop (fun k => decide (k < 2)) (fun k => k + 2) (fun k => (k : Rat))
        0 10 ⟨0, 0, 0⟩ =
      (⟨2, 5, 1⟩,
        [⟨0, 0, 2, "ok"⟩, ⟨1, 1, 3, "ok"⟩, ⟨2, 2, 0, "send_fail"⟩], 1) := by
  have h := run_aborts_on_send_failure (fun k => decide (k < 2)) (fun k => k + 2)
    (fun k => (k : Rat)) 3 10 (by norm_num) (by norm_num)
    (fun k hk => by simp only [decide_eq_true_eq]; omega) (by decide)
  rw [h]
  norm_num [List.range_succ]

theorem make_payload_seq_prefix (payload_len seq : Nat) (rng : Nat → Nat)
    (h : 0 < payload_len) :
    (make_payload payload_len seq rng).take (min 4 payload_len) =
      (packBE32 (seq % 2 ^ 32)).take (min 4 payload_len) := by
  unfold make_payload
  rw [if_neg (by omega)]
  by_cases h4 : 4 ≤ payload_len
  · rw [if_pos h4, show min 4 payload_len = 4 from by omega,
      show (4 : Nat) = (packBE32 (seq % 2 ^ 32)).length from rfl,
      List.take_left, List.take_length]
  · rw [if_neg h4, show min 4 payload_len = payload_len from by omega,
      List.take_take, show min payload_len payload_len = payload_len from by omega]

/-- Internal state of the `message_stream` generator (tcp_gen.py lines
154-165): its own sequence counter `seq` (starting at 0, incremented once
per yielded message) and the number of payload-RNG draws consumed so far
(`make_payload` consumes `payload_len - 4` draws per call when
`payload_len >= 4`, none otherwise). -/
structure GenSt where
  seq : Nat
  rix : Nat
deriving DecidableEq

/-- One step of `message_stream`: build the payload for the current internal
sequence number from the current position of the payload RNG stream, frame
it with `build_message`, and advance the internal counters. -/
def gen_next (msgType : Int) (payloadLen : Nat) (rngS : Nat → Nat) (st : GenSt) :
    Except String (List Nat) × GenSt :=
  (build_message msgType (make_payload payloadLen st.seq (fun i => rngS (st.rix + i))),
   ⟨st.seq + 1, st.rix + (payloadLen - 4)⟩)

/-- Joint state of the send loop of `run` (tcp_gen.py lines 222-238) and the
`message_stream` generator it consumes: the loop's own `seq` counter, the
generator state, the messages obtained from `next(gen)` in send order, and
the sequence column of the log records written by `_send_one`, in order. -/
structure RunSt where
  loopSeq : Nat
  gst : GenSt
  msgs : List (Except String (List Nat))
  logSeqs : List Nat

/-- One iteration of the send loop: pull the next message from the
generator, send it and log it under the loop's `seq`, then increment the
loop's `seq` (tcp_gen.py lines 237-238). -/
def run_step (msgType : Int) (payloadLen : Nat) (rngS : Nat → Nat) (st : RunSt) :
    RunSt :=
  { loopSeq := st.loopSeq + 1,
    gst := (gen_next msgType payloadLen rngS st.gst).2,
    msgs := st.msgs ++ [(gen_next msgType payloadLen rngS st.gst).1],
    logSeqs := st.logSeqs ++ [st.loopSeq] }

/-- The joint state after `n` successful iterations of the send loop, both
counters starting at 0. -/
def run_iter (msgType : Int) (payloadLen : Nat) (rngS : Nat → Nat) : Nat → RunSt
  | 0 => ⟨0, ⟨0, 0⟩, [], []⟩
  | n + 1 => run_step msgType payloadLen rngS (run_iter msgType payloadLen rngS n)

theorem run_iter_state (msgType : Int) (payloadLen : Nat) (rngS : Nat → Nat) :
    ∀ n : Nat, (run_iter msgType payloadLen rngS n).loopSeq = n ∧
      (run_iter msgType payloadLen rngS n).gst = ⟨n, n * (payloadLen - 4)⟩ ∧
      (run_iter msgType payloadLen rngS n).logSeqs = List.range n ∧
      (run_iter msgType payloadLen rngS n).msgs = (List.range n).map (fun k =>
        build_message msgType (make_payload payloadLen k
          (fun i => rngS (k * (payloadLen - 4) + i))))
  | 0 => by simp [run_iter]
  | n + 1 => by
    obtain ⟨h1, h2, h3, h4⟩ := run_iter_state msgType payloadLen rngS n
    refine ⟨by simp [run_iter, run_step, h1], ?_, ?_, ?_⟩
    · simp only [run_iter, run_step, gen_next, h2]
      have : n * (payloadLen - 4) + (payloadLen - 4) = (n + 1) * (payloadLen - 4) := by
        ring
      simp [this]
    · simp [run_iter, run_step, h1, h3, List.range_succ]
    · simp only [run_iter, run_step, gen_next, h2, h4, List.range_succ, List.map_append,
        List.map_cons, List.map_nil]

/-- C9: the run loop sequence counter and the message generator's internal
sequence counter stay equal throughout a run — both start at 0 and each is
incremented exactly once per message sent — so after `n` sends both equal
`n`; for every `k < n` the `k`-th message sent (0-indexed) is logged with
sequence column `k` and was built from `make_payload` at sequence number
`k`, whose payload (whenever `payload_len > 0`) embeds `k` in its first
`min(4, payload_len)` bytes as the big-endian encoding of `k mod 2^32` —
the embedded sequence and the logged sequence always agree. -/
theorem run_sequence_alignment (msgType : Int) (payloadLen : Nat)
    (rngS : Nat → Nat) (n : Nat) :
    (run_iter msgType payloadLen rngS n).loopSeq = n ∧
    (run_iter msgType payloadLen rngS n).gst.seq = n ∧
    (run_iter msgType payloadLen rngS n).logSeqs = List.range n ∧
    (∀ k, k < n →
      (run_iter msgType payloadLen rngS n).logSeqs[k]? = some k ∧
      (run_iter msgType payloadLen rngS n).msgs[k]? = some (build_message msgType
        (make_payload payloadLen k (fun i => rngS (k * (payloadLen - 4) + i)))) ∧
      (0 < payloadLen →
        (make_payload payloadLen k
            (fun i => rngS (k * (payloadLen - 4) + i))).take (min 4 payloadLen) =
          (packBE32 (k % 2 ^ 32)).take (min 4 payloadLen))) := by
  obtain ⟨h1, h2, h3, h4⟩ := run_iter_state msgType payloadLen rngS n
  refine ⟨h1, by rw [h2], h3, ?_⟩
  intro k hk
  refine ⟨?_, ?_, fun hp => make_payload_seq_prefix payloadLen k _ hp⟩
  · rw [h3]
    exact List.getElem?_range hk
  · rw [h4, List.getElem?_map, List.getElem?_range hk]
    rfl

theorem run_sequence_alignment_witness :
    (run_iter 68 3 (fun i => i) 2).loopSeq = 2 ∧
    (run_iter 68 3 (fun i => i) 2).gst.seq = 2 ∧
    (run_iter 68 3 (fun i => i) 2).logSeqs[1]? = some 1 ∧
    (run_iter 68 3 (fun i => i) 2).msgs[1]? = some (build_message 68
      (make_payload 3 1 (fun i => 1 * (3 - 4) + i))) ∧
    (make_payload 3 1 (fun i => 1 * (3 - 4) + i)).take (min 4 3) =
      (packBE32 (1 % 2 ^ 32)).take (min 4 3) := by
  obtain ⟨h1, h2, h3, h4⟩ := run_sequence_alignment 68 3 (fun i => i) 2
  obtain ⟨ha, hb, hc⟩ := h4 1 (by norm_num)
  exact ⟨h1, h2, ha, hb, hc (by norm_num)⟩

end TcpGen
